import Mathlib

/-!
Verification of the order-router repository: a shallow embedding of
`somewhat_smart_order_router.py` and `cluster_features.py`.

Modelling conventions:
* Python strings are lists of Unicode code points (`PyStr`); `str.upper` is
  modelled on the ASCII range, which is exact for every comparison the code
  performs (the only code point whose uppercase form is `"B"` is `b`).
* Python floats appearing in the router's comparisons are modelled by `FVal`:
  NaN, the two infinities, and finite values as rationals, with the IEEE-754
  comparison semantics the scoring loop relies on (`fgt`, `fge`).
* A fitted regressor is a function from the feature frame to a predicted
  value; `joblib.load`'s artifact is a list of (exchange, model) pairs, the
  dict's iteration order being the list order.
* Exceptions are modelled with `Except`; Python's `RuntimeError(msg)` becomes
  `PyError.runtimeError msg`.
* Stateful pieces (the module-global model cache, the transformer's fitted
  state) are modelled by explicit state passing.
-/

/-- A Python string as its list of Unicode code points. -/
abbrev PyStr := List Nat

/-- `str.upper` on one code point, restricted to the ASCII letters (the only
range relevant to the router's single comparison against `"B"`): code points
97..122 are shifted down by 32, everything else is unchanged. -/
def pyUpperChar (c : Nat) : Nat :=
  if 97 ≤ c ∧ c ≤ 122 then c - 32 else c

/-- `str.upper` applied to a whole string. -/
def pyUpper (s : PyStr) : PyStr := s.map pyUpperChar

/-- A Python float value as the router's comparisons see it. -/
inductive FVal where
  | nan : FVal
  | ninf : FVal
  | pinf : FVal
  | fin : ℚ → FVal
deriving DecidableEq

/-- IEEE-754 strict greater-than: any comparison with NaN is false. -/
def fgt : FVal → FVal → Bool
  | .nan, _ => false
  | _, .nan => false
  | .pinf, .pinf => false
  | .pinf, .ninf => true
  | .pinf, .fin _ => true
  | .ninf, _ => false
  | .fin _, .pinf => false
  | .fin _, .ninf => true
  | .fin q, .fin r => decide (r < q)

/-- IEEE-754 greater-than-or-equal: any comparison with NaN is false. -/
def fge : FVal → FVal → Bool
  | .nan, _ => false
  | _, .nan => false
  | .pinf, _ => true
  | .ninf, .ninf => true
  | .ninf, _ => false
  | .fin _, .pinf => false
  | .fin _, .ninf => true
  | .fin q, .fin r => decide (r ≤ q)

/-- A Python exception as the router raises it. -/
inductive PyError where
  | runtimeError (msg : String)
deriving DecidableEq

namespace OrderRouter

/-- The single-row pandas DataFrame the router builds: named columns in
order, each holding one value, together with the dtype the constructor was
given. -/
structure DataFrame where
  cols : List (String × List ℚ)
  dtype : String
deriving DecidableEq

/-- The `pd.DataFrame({...}, dtype="float32")` construction of
`best_price_improvement`: one row, seven columns, in the literal order of the
source. -/
def buildFeatures (side_num : Int) (quantity : Int)
    (limit_price bid_price ask_price : ℚ) (bid_size ask_size : Int) :
    DataFrame :=
  { cols :=
      [ ("side_num", [(side_num : ℚ)]),
        ("OrderQty", [(quantity : ℚ)]),
        ("LimitPrice", [limit_price]),
        ("bid_price", [bid_price]),
        ("ask_price", [ask_price]),
        ("bid_size", [(bid_size : ℚ)]),
        ("ask_size", [(ask_size : ℚ)]) ],
    dtype := "float32" }

/-- `side_num = 1 if side.upper() == "B" else -1` (code point 66 is `B`). -/
def sideNumOf (side : PyStr) : Int :=
  if pyUpper side = [66] then 1 else -1

/-- A fitted per-exchange regressor: `float(model.predict(features)[0])`. -/
abbrev Model := DataFrame → FVal

/-- The deserialized artifact: exchange codes with their models, in the
dict's iteration order. -/
abbrev ModelsByExchange := List (String × Model)

/-- The scoring loop of `best_price_improvement`, on the already-computed
predictions: running state is `best_exchange` / `best_prediction`, updated
under strict greater-than. -/
def scanBest : List (String × FVal) → Option String → FVal →
    Option String × FVal
  | [], best_exchange, best_prediction => (best_exchange, best_prediction)
  | (exchange, prediction) :: rest, best_exchange, best_prediction =>
    if fgt prediction best_prediction then scanBest rest (some exchange) prediction
    else scanBest rest best_exchange best_prediction

/-- The scoring loop as written: each model is invoked once, on the one
feature frame, interleaved with the comparisons. -/
def scanModels : ModelsByExchange → DataFrame → Option String → FVal →
    Option String × FVal
  | [], _, best_exchange, best_prediction => (best_exchange, best_prediction)
  | (exchange, model) :: rest, features, best_exchange, best_prediction =>
    let prediction := model features
    if fgt prediction best_prediction then scanModels rest features (some exchange) prediction
    else scanModels rest features best_exchange best_prediction

/-- `best_price_improvement` from `somewhat_smart_order_router.py`, the
loaded model mapping passed explicitly (see `load_models` for the cache).
`symbol` is deleted unused; an empty mapping raises; otherwise the scoring
loop runs and the selected exchange code — alone — is returned. -/
def best_price_improvement (models : ModelsByExchange)
    (symbol side : PyStr) (quantity : Int)
    (limit_price bid_price ask_price : ℚ) (bid_size ask_size : Int) :
    Except PyError String :=
  match models with
  | [] => .error (.runtimeError "No models were loaded.")
  | _ :: _ =>
    let side_num := sideNumOf side
    let features :=
      buildFeatures side_num quantity limit_price bid_price ask_price bid_size ask_size
    match scanModels models features none .ninf with
    | (some best_exchange, _) => .ok best_exchange
    | (none, _) => .error (.runtimeError "No valid prediction could be made.")

/-- `_load_models`: explicit-state rendering of the module global `_models`.
Input: the cache before the call and the artifact on disk; output: the
returned mapping, the cache after the call, and whether disk was read. -/
def load_models (models_cache : Option ModelsByExchange)
    (disk : ModelsByExchange) : ModelsByExchange × Option ModelsByExchange × Bool :=
  match models_cache with
  | none => (disk, some disk, true)
  | some m => (m, some m, false)

/-- Number of disk reads performed by `n` successive `_load_models` calls
starting from a given cache state. -/
def countReads : Nat → Option ModelsByExchange → ModelsByExchange → Nat
  | 0, _, _ => 0
  | n + 1, models_cache, disk =>
    let r := load_models models_cache disk
    (if r.2.2 then 1 else 0) + countReads n r.2.1 disk

end OrderRouter

namespace ClusterFeatures

/-- Squared Euclidean distance between a row and a centroid. -/
def sqDist (x c : List ℚ) : ℚ :=
  (List.zipWith (fun a b => (a - b) ^ 2) x c).sum

/-- Fold of the nearest-centroid search: `i` is the index of the next
centroid, `best_i`/`best_d` the best index and distance so far (first
centroid wins ties, as `np.argmin` does). -/
def nearestIdxAux (x : List ℚ) : List (List ℚ) → Nat → Nat → ℚ → Nat
  | [], _, best_i, _ => best_i
  | c :: rest, i, best_i, best_d =>
    if sqDist x c < best_d then nearestIdxAux x rest (i + 1) i (sqDist x c)
    else nearestIdxAux x rest (i + 1) best_i best_d

/-- Index of the centroid nearest to `x` (0 on an empty centroid list, which
a fitted model never has). -/
def nearestIdx (centroids : List (List ℚ)) (x : List ℚ) : Nat :=
  match centroids with
  | [] => 0
  | c :: rest => nearestIdxAux x rest 1 0 (sqDist x c)

/-- A fitted `sklearn.cluster.KMeans`, by its observable contract: a model
fitted with `n_clusters = k` owns `k` cluster centers, and `predict` assigns
each row the index of its nearest center. The Lloyd iteration producing the
centers is library-internal and irrelevant to the repository's claims. -/
structure KMeansModel where
  n_clusters : Nat
  random_state : Int
  cluster_centers : List (List ℚ)
deriving DecidableEq

/-- `KMeans.predict`: one nearest-center label per row of `X`. -/
def KMeansModel.predict (m : KMeansModel) (X : List (List ℚ)) : List Nat :=
  X.map (nearestIdx m.cluster_centers)

/-- Centers of the fitted model (external library behaviour, used only
through its shape: exactly `k` centers). Modelled as the first `k` rows of
the data, padded with empty rows — the claims do not depend on the values. -/
def kmeansCenters (k : Nat) (X : List (List ℚ)) : List (List ℚ) :=
  (List.range k).map (fun i => X.getD i [])

/-- `ClusterFeatureAdder` from `cluster_features.py`: the constructor
parameters and the `kmeans_` attribute (`none` until `fit` runs). -/
structure ClusterFeatureAdder where
  n_clusters : Nat
  random_state : Int
  kmeans_ : Option KMeansModel

/-- `ClusterFeatureAdder.__init__(n_clusters=5, random_state=42)`. -/
def ClusterFeatureAdder.mk0 (n_clusters : Nat) (random_state : Int) :
    ClusterFeatureAdder :=
  { n_clusters := n_clusters, random_state := random_state, kmeans_ := none }

/-- `ClusterFeatureAdder.fit`: builds a `KMeans(n_clusters, random_state)`,
fits it on `X`, stores it in `kmeans_`, returns self. -/
def ClusterFeatureAdder.fit (a : ClusterFeatureAdder) (X : List (List ℚ)) :
    ClusterFeatureAdder :=
  { a with
    kmeans_ := some
      { n_clusters := a.n_clusters,
        random_state := a.random_state,
        cluster_centers := kmeansCenters a.n_clusters X } }

/-- `ClusterFeatureAdder.transform`: raises if `kmeans_` is `None`;
otherwise predicts one cluster label per row, casts the labels to floats and
appends them as the last column (`np.hstack`). The method writes no
attribute, so the returned state is the incoming one. -/
def ClusterFeatureAdder.transform (a : ClusterFeatureAdder)
    (X : List (List ℚ)) :
    Except PyError (List (List ℚ) × ClusterFeatureAdder) :=
  match a.kmeans_ with
  | none =>
    .error (.runtimeError "ClusterFeatureAdder must be fitted before calling transform().")
  | some m =>
    let clusters := m.predict X
    .ok (List.zipWith (fun row (c : Nat) => row ++ [(c : ℚ)]) X clusters, a)

end ClusterFeatures

/-! ## Basic facts about the float comparison -/

theorem fgt_irrefl (a : FVal) : fgt a a = false := by
  cases a <;> simp [fgt]

theorem fgt_trans {a b c : FVal} (h1 : fgt a b = true) (h2 : fgt b c = true) :
    fgt a c = true := by
  cases a <;> cases b <;> cases c <;> simp_all [fgt]
  linarith

theorem fgt_left_ne_nan {a b : FVal} (h : fgt a b = true) : a ≠ FVal.nan := by
  cases a <;> simp_all [fgt]

theorem fgt_false_ge {a b : FVal} (h : fgt a b = false)
    (ha : a ≠ FVal.nan) (hb : b ≠ FVal.nan) : fge b a = true := by
  cases a <;> cases b <;> simp_all [fgt, fge]

/-! ## The scoring loop -/

namespace OrderRouter

theorem scanBest_notgt (a : FVal) :
    ∀ (l : List (String × FVal)) (be : Option String) (bp : FVal),
      fgt a bp = false → fgt a (scanBest l be bp).2 = false := by
  intro l
  induction l with
  | nil => intro be bp h; exact h
  | cons x rest ih =>
    intro be bp h
    obtain ⟨e, p⟩ := x
    by_cases hx : fgt p bp = true
    · have hap : fgt a p = false := by
        cases hap : fgt a p
        · rfl
        · exact absurd (fgt_trans hap hx) (by simp [h])
      simpa [scanBest, hx] using ih (some e) p hap
    · simp only [Bool.not_eq_true] at hx
      simpa [scanBest, hx] using ih be bp h

theorem scanBest_elem_notgt :
    ∀ (l : List (String × FVal)) (be : Option String) (bp : FVal),
      ∀ q ∈ l, fgt q.2 (scanBest l be bp).2 = false := by
  intro l
  induction l with
  | nil => intro be bp q hq; cases hq
  | cons x rest ih =>
    intro be bp q hq
    obtain ⟨e, p⟩ := x
    rcases List.mem_cons.mp hq with rfl | hq
    · by_cases hx : fgt p bp = true
      · simpa [scanBest, hx] using scanBest_notgt p rest (some e) p (fgt_irrefl p)
      · simp only [Bool.not_eq_true] at hx
        simpa [scanBest, hx] using scanBest_notgt p rest be bp hx
    · by_cases hx : fgt p bp = true
      · simpa [scanBest, hx] using ih (some e) p q hq
      · simp only [Bool.not_eq_true] at hx
        simpa [scanBest, hx] using ih be bp q hq

theorem scanBest_some :
    ∀ (l : List (String × FVal)) (e : String) (bp : FVal),
      ∃ v p, scanBest l (some e) bp = (some v, p) := by
  intro l
  induction l with
  | nil => intro e bp; exact ⟨e, bp, rfl⟩
  | cons x rest ih =>
    intro e bp
    obtain ⟨e2, p2⟩ := x
    by_cases hx : fgt p2 bp = true
    · simpa [scanBest, hx] using ih e2 p2
    · simp only [Bool.not_eq_true] at hx
      simpa [scanBest, hx] using ih e bp

theorem scanBest_none_iff :
    ∀ (l : List (String × FVal)) (bp : FVal),
      (scanBest l none bp).1 = none ↔ ∀ q ∈ l, fgt q.2 bp = false := by
  intro l
  induction l with
  | nil => intro bp; simp [scanBest]
  | cons x rest ih =>
    intro bp
    obtain ⟨e, p⟩ := x
    by_cases hx : fgt p bp = true
    · obtain ⟨v, p2, hvp⟩ := scanBest_some rest e p
      simp [scanBest, hx, hvp]
    · simp only [Bool.not_eq_true] at hx
      simp [scanBest, hx, ih bp]

theorem scanBest_split :
    ∀ (l : List (String × FVal)) (be : Option String) (bp : FVal)
      (v : String) (p : FVal),
      scanBest l be bp = (some v, p) →
      (be = some v ∧ bp = p) ∨
      ∃ l1 l2, l = l1 ++ (v, p) :: l2 ∧ fgt p bp = true ∧
        (∀ q ∈ l1, q.2 ≠ p) ∧ (∀ q ∈ l2, fgt q.2 p = false) := by
  intro l
  induction l with
  | nil =>
    intro be bp v p h
    simp only [scanBest, Prod.mk.injEq] at h
    exact Or.inl ⟨h.1, h.2⟩
  | cons x rest ih =>
    intro be bp v p h
    obtain ⟨e, pr⟩ := x
    by_cases hx : fgt pr bp = true
    · simp only [scanBest, hx, if_pos] at h
      rcases ih (some e) pr v p h with ⟨he, hp⟩ | ⟨r1, r2, hrest, hgt, h1mem, h2mem⟩
      · refine Or.inr ⟨[], rest, ?_, ?_, ?_, ?_⟩
        · simp only [List.nil_append]
          have he2 : e = v := by injection he
          rw [he2, hp]
        · rw [← hp]; exact hx
        · intro q hq; cases hq
        · intro q hq
          have := scanBest_elem_notgt rest (some e) pr q hq
          rw [h] at this
          exact this
      · refine Or.inr ⟨(e, pr) :: r1, r2, by simp [hrest], fgt_trans hgt hx, ?_, h2mem⟩
        intro q hq
        rcases List.mem_cons.mp hq with hq | hq
        · subst hq
          intro hpe
          have hpe2 : pr = p := hpe
          rw [hpe2] at hgt
          simp [fgt_irrefl] at hgt
        · exact h1mem q hq
    · simp only [Bool.not_eq_true] at hx
      simp only [scanBest, hx, Bool.false_eq_true, if_false] at h
      rcases ih be bp v p h with hleft | ⟨r1, r2, hrest, hgt, h1mem, h2mem⟩
      · exact Or.inl hleft
      · refine Or.inr ⟨(e, pr) :: r1, r2, by simp [hrest], hgt, ?_, h2mem⟩
        intro q hq
        rcases List.mem_cons.mp hq with hq | hq
        · subst hq
          intro hpe
          have hpe2 : pr = p := hpe
          rw [← hpe2] at hgt
          rw [hgt] at hx
          cases hx
        · exact h1mem q hq

theorem scanModels_eq_scanBest :
    ∀ (ms : ModelsByExchange) (f : DataFrame) (be : Option String) (bp : FVal),
      scanModels ms f be bp = scanBest (ms.map fun vm => (vm.1, vm.2 f)) be bp := by
  intro ms
  induction ms with
  | nil => intro f be bp; rfl
  | cons x rest ih =>
    intro f be bp
    obtain ⟨e, m⟩ := x
    by_cases hx : fgt (m f) bp = true
    · simp [scanModels, scanBest, hx, ih]
    · simp only [Bool.not_eq_true] at hx
      simp [scanModels, scanBest, hx, ih]

end OrderRouter

/-! ## Side encoding -/

theorem pyUpperChar_eq_B (c : Nat) : pyUpperChar c = 66 ↔ c = 66 ∨ c = 98 := by
  unfold pyUpperChar
  split <;> omega

theorem pyUpper_eq_B (s : PyStr) : pyUpper s = [66] ↔ s = [66] ∨ s = [98] := by
  match s with
  | [] => simp [pyUpper]
  | [c] => simpa [pyUpper] using pyUpperChar_eq_B c
  | c :: c2 :: t => simp [pyUpper]

namespace OrderRouter

/-- C3: the router encodes side as the numeric feature +1 exactly when
`side.upper()` equals `"B"` — that is, exactly for the strings `"B"` and
`"b"` (code points 66, 98), which are treated identically — and -1 for every
other value, including `"s"` (115) and `"S"` (83) and any unrecognized code,
with no validation error (the encoding is total and two-valued). -/
theorem side_encoding_case_insensitive (side : PyStr) :
    (sideNumOf side = 1 ↔ (side = [66] ∨ side = [98])) ∧
    (sideNumOf side = 1 ∨ sideNumOf side = -1) ∧
    sideNumOf [66] = sideNumOf [98] ∧
    sideNumOf [66] = 1 ∧ sideNumOf [115] = -1 ∧ sideNumOf [83] = -1 := by
  refine ⟨?_, ?_, by decide, by decide, by decide, by decide⟩
  · by_cases h : pyUpper side = [66]
    · simp [sideNumOf, h, (pyUpper_eq_B side).mp h]
    · simp only [sideNumOf, h, if_false]
      constructor
      · intro hc; exact absurd hc (by decide)
      · intro hc; exact absurd ((pyUpper_eq_B side).mpr hc) h
  · unfold sideNumOf
    split
    · exact Or.inl rfl
    · exact Or.inr rfl

/-- C5: with an empty loaded mapping, the router raises
`RuntimeError("No models were loaded.")` before the scoring loop can run,
whatever the order parameters are; no result is produced. -/
theorem empty_registry_raises (symbol side : PyStr) (quantity : Int)
    (limit_price bid_price ask_price : ℚ) (bid_size ask_size : Int) :
    best_price_improvement [] symbol side quantity limit_price bid_price
        ask_price bid_size ask_size
      = .error (.runtimeError "No models were loaded.") := rfl

theorem countReads_cached (m disk : ModelsByExchange) (n : Nat) :
    countReads n (some m) disk = 0 := by
  induction n with
  | zero => rfl
  | succ k ih => simpa [countReads, load_models] using ih

/-- C9: the registry is read from disk exactly when the cache is `None`: the
first call reads once and stores the mapping; a call with a populated cache
returns the cached mapping unchanged with no disk read (whatever is now on
disk); over `n` further calls after the first, zero additional reads occur,
and a sequence of `n + 1` calls starting cold reads the disk exactly once. -/
theorem load_models_caches (disk m d2 : ModelsByExchange) (n : Nat) :
    load_models none disk = (disk, some disk, true) ∧
    load_models (some m) d2 = (m, some m, false) ∧
    countReads n (some disk) disk = 0 ∧
    countReads (n + 1) none disk = 1 := by
  refine ⟨rfl, rfl, countReads_cached disk disk n, ?_⟩
  simp [countReads, load_models, countReads_cached]

/-- C1 (evaluation at the failing input): with the two-venue registry where
A's model always predicts 10.0 and B's always 5.0, the scoring loop does
compute the winning pair (A, 10.0), but `best_price_improvement` returns
only the bare identifier `"A"`: its result carries no predicted value,
while the repository's own tests unpack a (venue, float) pair from it. -/
theorem router_returns_bare_identifier :
    best_price_improvement
        [("A", fun _ => FVal.fin 10), ("B", fun _ => FVal.fin 5)]
        [65, 65, 80, 76] [66] 100 180 (1799/10) (1801/10) 500 600
      = Except.ok "A" ∧
    scanModels [("A", fun _ => FVal.fin 10), ("B", fun _ => FVal.fin 5)]
        (buildFeatures 1 100 180 (1799/10) (1801/10) 500 600) none FVal.ninf
      = (some "A", FVal.fin 10) := ⟨rfl, rfl⟩

end OrderRouter

namespace OrderRouter

/-- C8: every call assembles exactly one feature row, with the columns in
the fixed source order (side_num, OrderQty, LimitPrice, bid_price,
ask_price, bid_size, ask_size), each column holding the single cast input
value, under dtype float32; and the whole scoring pass equals a scan over
the models each applied once to that one frame, so the frame is fixed
before any model is scored. -/
theorem feature_frame_fixed (models : ModelsByExchange) (symbol side : PyStr)
    (quantity : Int) (limit_price bid_price ask_price : ℚ)
    (bid_size ask_size : Int) :
    (buildFeatures (sideNumOf side) quantity limit_price bid_price ask_price
        bid_size ask_size).cols.map Prod.fst
      = ["side_num", "OrderQty", "LimitPrice", "bid_price", "ask_price",
         "bid_size", "ask_size"] ∧
    (buildFeatures (sideNumOf side) quantity limit_price bid_price ask_price
        bid_size ask_size).cols.map Prod.snd
      = [[(sideNumOf side : ℚ)], [(quantity : ℚ)], [limit_price], [bid_price],
         [ask_price], [(bid_size : ℚ)], [(ask_size : ℚ)]] ∧
    (buildFeatures (sideNumOf side) quantity limit_price bid_price ask_price
        bid_size ask_size).dtype = "float32" ∧
    best_price_improvement models symbol side quantity limit_price bid_price
        ask_price bid_size ask_size
      = match models with
        | [] => .error (.runtimeError "No models were loaded.")
        | _ :: _ =>
          match scanBest
              (models.map fun vm =>
                (vm.1, vm.2 (buildFeatures (sideNumOf side) quantity
                  limit_price bid_price ask_price bid_size ask_size)))
              none .ninf with
          | (some best_exchange, _) => .ok best_exchange
          | (none, _) => .error (.runtimeError "No valid prediction could be made.") := by
  refine ⟨rfl, rfl, rfl, ?_⟩
  cases models with
  | nil => rfl
  | cons m rest =>
    have hs := scanModels_eq_scanBest (m :: rest)
      (buildFeatures (sideNumOf side) quantity limit_price bid_price
        ask_price bid_size ask_size) none .ninf
    simp only [best_price_improvement, hs]

/-- C2: whenever the router returns a venue `v`, the list of predictions —
each model invoked once on the single feature frame, in iteration order —
splits around an occurrence `(v, p)` such that no venue's prediction is
strictly greater than `p` under the code's float comparison (so `p` is
greater than or equal to every comparable prediction), and no venue earlier
in iteration order predicted `p`: on ties the first-encountered venue is
the one kept. -/
theorem router_running_max (models : ModelsByExchange) (symbol side : PyStr)
    (quantity : Int) (limit_price bid_price ask_price : ℚ)
    (bid_size ask_size : Int) (v : String)
    (h : best_price_improvement models symbol side quantity limit_price
        bid_price ask_price bid_size ask_size = .ok v) :
    ∃ p l1 l2,
      models.map (fun vm =>
          (vm.1, vm.2 (buildFeatures (sideNumOf side) quantity limit_price
            bid_price ask_price bid_size ask_size)))
        = l1 ++ (v, p) :: l2 ∧
      p ≠ FVal.nan ∧
      (∀ q ∈ l1 ++ (v, p) :: l2, fgt q.2 p = false) ∧
      (∀ q ∈ l1 ++ (v, p) :: l2, q.2 ≠ FVal.nan → fge p q.2 = true) ∧
      (∀ q ∈ l1, q.2 ≠ p) := by
  cases models with
  | nil => simp [best_price_improvement] at h
  | cons m rest =>
    rw [show best_price_improvement (m :: rest) symbol side quantity
          limit_price bid_price ask_price bid_size ask_size
        = (match scanModels (m :: rest)
              (buildFeatures (sideNumOf side) quantity limit_price bid_price
                ask_price bid_size ask_size) none .ninf with
           | (some best_exchange, _) => Except.ok best_exchange
           | (none, _) => .error (.runtimeError "No valid prediction could be made."))
      from rfl, scanModels_eq_scanBest] at h
    rcases hscan : scanBest
        ((m :: rest).map fun vm =>
          (vm.1, vm.2 (buildFeatures (sideNumOf side) quantity limit_price
            bid_price ask_price bid_size ask_size))) none .ninf with ⟨ob, p⟩
    rw [hscan] at h
    cases ob with
    | none => simp at h
    | some w =>
      simp only [Except.ok.injEq] at h
      subst h
      rcases scanBest_split _ none .ninf w p hscan with ⟨hbe, _⟩ | ⟨l1, l2, heq, hgt, hl1, _⟩
      · cases hbe
      · have hglobal := scanBest_elem_notgt
          ((m :: rest).map fun vm =>
            (vm.1, vm.2 (buildFeatures (sideNumOf side) quantity limit_price
              bid_price ask_price bid_size ask_size))) none .ninf
        rw [hscan] at hglobal
        have hpnan : p ≠ FVal.nan := fgt_left_ne_nan hgt
        refine ⟨p, l1, l2, heq, hpnan, ?_, ?_, hl1⟩
        · intro q hq
          exact hglobal q (heq ▸ hq)
        · intro q hq hqnan
          exact fgt_false_ge (hglobal q (heq ▸ hq)) hqnan hpnan

/-- Witness for C2 at a concrete registry: A predicts 10.0, B predicts 5.0,
side "B", and the router returns "A". -/
theorem router_running_max_witness :
    ∃ p l1 l2,
      ([(("A" : String), (fun _ => FVal.fin 10 : Model)),
        ("B", fun _ => FVal.fin 5)].map
          (fun vm =>
            (vm.1, vm.2 (buildFeatures (sideNumOf [66]) 100 180 (1799/10)
              (1801/10) 500 600))))
        = l1 ++ (("A" : String), p) :: l2 ∧
      p ≠ FVal.nan ∧
      (∀ q ∈ l1 ++ (("A" : String), p) :: l2, fgt q.2 p = false) ∧
      (∀ q ∈ l1 ++ (("A" : String), p) :: l2, q.2 ≠ FVal.nan → fge p q.2 = true) ∧
      (∀ q ∈ l1, q.2 ≠ p) :=
  router_running_max
    [("A", fun _ => FVal.fin 10), ("B", fun _ => FVal.fin 5)]
    [65, 65, 80, 76] [66] 100 180 (1799/10) (1801/10) 500 600 "A" rfl

end OrderRouter

namespace OrderRouter

/-- C4: the post-loop `RuntimeError("No valid prediction could be made.")`
is raised if and only if the mapping is non-empty and every venue's
prediction fails the strict greater-than comparison against negative
infinity (as every NaN prediction does); and whenever at least one venue's
prediction compares strictly greater than negative infinity, that error
branch is unreachable and a venue is returned. -/
theorem no_selection_error_iff (models : ModelsByExchange)
    (symbol side : PyStr) (quantity : Int)
    (limit_price bid_price ask_price : ℚ) (bid_size ask_size : Int) :
    (best_price_improvement models symbol side quantity limit_price bid_price
        ask_price bid_size ask_size
      = .error (.runtimeError "No valid prediction could be made.")
      ↔ models ≠ [] ∧
        ∀ vm ∈ models,
          fgt (vm.2 (buildFeatures (sideNumOf side) quantity limit_price
            bid_price ask_price bid_size ask_size)) FVal.ninf = false) ∧
    ((∃ vm ∈ models,
        fgt (vm.2 (buildFeatures (sideNumOf side) quantity limit_price
          bid_price ask_price bid_size ask_size)) FVal.ninf = true) →
      ∃ v, best_price_improvement models symbol side quantity limit_price
        bid_price ask_price bid_size ask_size = .ok v) := by
  cases models with
  | nil =>
    constructor
    · simp [best_price_improvement]
    · rintro ⟨vm, hvm, _⟩
      cases hvm
  | cons m rest =>
    have hs := scanModels_eq_scanBest (m :: rest)
      (buildFeatures (sideNumOf side) quantity limit_price bid_price
        ask_price bid_size ask_size) none .ninf
    have hnone := scanBest_none_iff
      ((m :: rest).map fun vm =>
        (vm.1, vm.2 (buildFeatures (sideNumOf side) quantity limit_price
          bid_price ask_price bid_size ask_size))) .ninf
    rcases hscan : scanBest
        ((m :: rest).map fun vm =>
          (vm.1, vm.2 (buildFeatures (sideNumOf side) quantity limit_price
            bid_price ask_price bid_size ask_size))) none .ninf with ⟨ob, p⟩
    rw [hscan] at hnone hs
    have hmem : (∀ q ∈ (m :: rest).map fun vm =>
          (vm.1, vm.2 (buildFeatures (sideNumOf side) quantity limit_price
            bid_price ask_price bid_size ask_size)), fgt q.2 FVal.ninf = false)
        ↔ ∀ vm ∈ m :: rest,
          fgt (vm.2 (buildFeatures (sideNumOf side) quantity limit_price
            bid_price ask_price bid_size ask_size)) FVal.ninf = false := by
      constructor
      · intro hall vm hvm
        exact hall _ (List.mem_map_of_mem _ hvm)
      · intro hall q hq
        rcases List.mem_map.mp hq with ⟨vm, hvm, rfl⟩
        exact hall vm hvm
    cases ob with
    | some w =>
      constructor
      · simp only [best_price_improvement, hs]
        constructor
        · intro hcontra
          cases hcontra
        · rintro ⟨-, hall⟩
          have : (some w : Option String) = none := hnone.mpr (hmem.mpr hall)
          cases this
      · intro _
        refine ⟨w, ?_⟩
        simp only [best_price_improvement, hs]
    | none =>
      have hall : ∀ vm ∈ m :: rest,
          fgt (vm.2 (buildFeatures (sideNumOf side) quantity limit_price
            bid_price ask_price bid_size ask_size)) FVal.ninf = false :=
        hmem.mp (hnone.mp rfl)
      constructor
      · simp only [best_price_improvement, hs]
        constructor
        · intro _
          exact ⟨List.cons_ne_nil m rest, hall⟩
        · intro _
          trivial
      · rintro ⟨vm, hvm, htrue⟩
        rw [hall vm hvm] at htrue
        cases htrue

end OrderRouter

/-! ## The cluster feature transformer -/

namespace ClusterFeatures

theorem nearestIdxAux_lt (x : List ℚ) :
    ∀ (cs : List (List ℚ)) (i best_i : Nat) (best_d : ℚ) (n : Nat),
      best_i < n → i + cs.length ≤ n → nearestIdxAux x cs i best_i best_d < n := by
  intro cs
  induction cs with
  | nil => intro i bi bd n h1 _; simpa [nearestIdxAux] using h1
  | cons c rest ih =>
    intro i bi bd n h1 h2
    simp only [List.length_cons] at h2
    by_cases hc : sqDist x c < bd
    · simp only [nearestIdxAux, if_pos hc]
      exact ih (i + 1) i (sqDist x c) n (by omega) (by omega)
    · simp only [nearestIdxAux, if_neg hc]
      exact ih (i + 1) bi bd n h1 (by omega)

theorem nearestIdx_lt (centroids : List (List ℚ)) (x : List ℚ)
    (h : centroids ≠ []) : nearestIdx centroids x < centroids.length := by
  cases centroids with
  | nil => exact absurd rfl h
  | cons c rest =>
    simp only [nearestIdx, List.length_cons]
    exact nearestIdxAux_lt x rest 1 0 (sqDist x c) (rest.length + 1)
      (by omega) (by omega)

/-- C6: on a fitted adder whose KMeans model has k centers, `transform`
returns the input matrix with exactly one extra column: there is a list of
per-row labels, one per row of X, each a natural number below k cast to the
numeric type, and the output has row i equal to row i of X with its label
appended, with the row count unchanged. -/
theorem transform_appends_cluster_column (a : ClusterFeatureAdder)
    (m : KMeansModel) (X : List (List ℚ)) (k : Nat)
    (hm : a.kmeans_ = some m) (hk : m.cluster_centers.length = k)
    (hpos : 0 < k) :
    ∃ labels : List Nat,
      a.transform X
        = .ok (List.zipWith (fun row (c : Nat) => row ++ [(c : ℚ)]) X labels, a) ∧
      labels.length = X.length ∧
      (∀ c ∈ labels, c < k) ∧
      (List.zipWith (fun row (c : Nat) => row ++ [(c : ℚ)]) X labels).length
        = X.length := by
  refine ⟨m.predict X, ?_, ?_, ?_, ?_⟩
  · simp [ClusterFeatureAdder.transform, hm]
  · simp [KMeansModel.predict]
  · intro c hc
    rcases List.mem_map.mp hc with ⟨row, _, rfl⟩
    have hne : m.cluster_centers ≠ [] := by
      intro hnil
      rw [hnil] at hk
      simp at hk
      omega
    have := nearestIdx_lt m.cluster_centers row hne
    omega
  · rw [List.length_zipWith]
    simp [KMeansModel.predict]

/-- Witness for C6: a fitted adder with two one-dimensional centers, 0 and
10, transforming the two rows [1] and [9]. -/
theorem transform_appends_cluster_column_witness :
    ∃ labels : List Nat,
      ClusterFeatureAdder.transform ⟨2, 42, some ⟨2, 42, [[0], [10]]⟩⟩ [[1], [9]]
        = .ok (List.zipWith (fun row (c : Nat) => row ++ [(c : ℚ)]) [[1], [9]] labels,
            ⟨2, 42, some ⟨2, 42, [[0], [10]]⟩⟩) ∧
      labels.length = ([[1], [9]] : List (List ℚ)).length ∧
      (∀ c ∈ labels, c < 2) ∧
      (List.zipWith (fun row (c : Nat) => row ++ [(c : ℚ)]) [[1], [9]] labels).length
        = ([[1], [9]] : List (List ℚ)).length :=
  transform_appends_cluster_column ⟨2, 42, some ⟨2, 42, [[0], [10]]⟩⟩
    ⟨2, 42, [[0], [10]]⟩ [[1], [9]] 2 rfl rfl (by decide)

/-- C7: `transform` on an adder whose `kmeans_` is still `None` raises the
usage error (and predicts nothing, there being no fitted model to call);
once `fit` has run, `transform` returns a result and never that error. -/
theorem transform_requires_fit (a : ClusterFeatureAdder)
    (X : List (List ℚ)) :
    (a.kmeans_ = none →
      a.transform X = .error (.runtimeError
        "ClusterFeatureAdder must be fitted before calling transform().")) ∧
    (∀ X0 : List (List ℚ), ∃ Y, (a.fit X0).transform X = .ok Y) := by
  constructor
  · intro h
    simp [ClusterFeatureAdder.transform, h]
  · intro X0
    exact ⟨_, rfl⟩

/-- C10: `transform` mutates nothing: whenever it succeeds, the returned
adder state is exactly the incoming one (the method writes no attribute),
so calling `transform` again on the returned state with the same `X`
reproduces the same output. -/
theorem transform_pure (a : ClusterFeatureAdder) (X : List (List ℚ))
    (Y : List (List ℚ)) (a2 : ClusterFeatureAdder)
    (h : a.transform X = .ok (Y, a2)) :
    a2 = a ∧ a2.transform X = .ok (Y, a2) := by
  cases hm : a.kmeans_ with
  | none => simp [ClusterFeatureAdder.transform, hm] at h
  | some m =>
    simp only [ClusterFeatureAdder.transform, hm, Except.ok.injEq,
      Prod.mk.injEq] at h
    obtain ⟨hY, ha⟩ := h
    subst ha
    constructor
    · rfl
    · simp [ClusterFeatureAdder.transform, hm, hY]

/-- Witness for C10: a fitted one-center adder transforming the single row
[1]; the label is 0 and the state comes back unchanged. -/
theorem transform_pure_witness :
    (⟨1, 42, some ⟨1, 42, [[0]]⟩⟩ : ClusterFeatureAdder)
      = ⟨1, 42, some ⟨1, 42, [[0]]⟩⟩ ∧
    ClusterFeatureAdder.transform ⟨1, 42, some ⟨1, 42, [[0]]⟩⟩ [[1]]
      = .ok ([[1, ((0 : Nat) : ℚ)]], ⟨1, 42, some ⟨1, 42, [[0]]⟩⟩) :=
  transform_pure ⟨1, 42, some ⟨1, 42, [[0]]⟩⟩ [[1]] [[1, ((0 : Nat) : ℚ)]]
    ⟨1, 42, some ⟨1, 42, [[0]]⟩⟩ rfl

end ClusterFeatures
